import Mathlib

/-!
# Verification of the AI video engine's task and material-resolution core

Shallow embedding of the task execution engine of this repository:

* `find_closest_video` embeds `MaterialHelper._find_closest_video`
  (src/services/material/base.py, lines 24-46);
* `MaterialHelper.get_videos` embeds the single-helper resolution loop
  (base.py, lines 56-84), with the network search and the download step
  abstracted as oracles;
* `MultiSourceAggregator.get_videos` embeds the multi-source variant
  (src/services/material/multi_source.py, lines 397-445);
* `save_video` embeds the cache behaviour of `MaterialHelper.save_video`
  (base.py, lines 86-122) over an explicit filesystem state;
* `update_task_status` embeds src/api/crud.py `update_task_status`;
* `Step`/`Reachable` give a small-step semantics of `TaskService.process_task`
  (src/api/service.py), with cooperative atomic blocks between suspension
  points as the atomic steps;
* `cancel_task` embeds the cancel endpoint (src/api/router.py, lines 65-82)
  composed with the `asyncio.CancelledError` handler of `process_task`;
* `expand_reels` embeds the reels segment expansion of
  `VideoGenerator._process_videos` (src/services/video.py, lines 255-286).

Python floats on durations are modelled as rationals (`ℚ`): every duration
literal appearing in the spec and the code (1, 1.5, 4.0, 6.5, 9.0, ...) is
exactly representable, and the comparison logic of the source uses only
ordering, addition, multiplication and division, which agree with `ℚ` on
those inputs.
-/

/-- Embeds `MaterialInfo` (src/schemas/video.py): provider tag, source URL,
duration in seconds, and local cached path (empty string until downloaded). -/
structure MaterialInfo where
  provider : String
  url : String
  duration : ℚ
  video_path : String
deriving DecidableEq, Repr

/-- `diff < min_diff` where `min_diff` starts as `float("inf")`; `none`
models the infinity initialisation. -/
def diff_lt (d : ℚ) : Option ℚ → Bool
  | none => true
  | some m => decide (d < m)

/-- First loop of `_find_closest_video` (base.py lines 30-37): scan all
candidates, skip used URLs, and among candidates with
`duration > audio_length + 1` keep the one with the smallest
`duration - audio_length` (strict improvement, so the earliest wins ties).
`closest`/`min_diff` carry the Python locals `closest_video`/`min_diff`. -/
def phase1_loop (audio_length : ℚ) (urls : List String) :
    List MaterialInfo → Option MaterialInfo → Option ℚ → Option MaterialInfo
  | [], closest, _ => closest
  | v :: vs, closest, min_diff =>
    if v.url ∈ urls then
      phase1_loop audio_length urls vs closest min_diff
    else if audio_length + 1 < v.duration then
      if diff_lt (v.duration - audio_length) min_diff then
        phase1_loop audio_length urls vs (some v) (some (v.duration - audio_length))
      else
        phase1_loop audio_length urls vs closest min_diff
    else
      phase1_loop audio_length urls vs closest min_diff

/-- Second loop of `_find_closest_video` (base.py lines 39-44): scan in
original order and overwrite `closest_video` with the first unused candidate
satisfying `audio_length + 1 < duration < audio_length * 1.5 + 1`, then break;
if no candidate qualifies the accumulator (the phase-1 result) survives. -/
def phase2_loop (audio_length : ℚ) (urls : List String) :
    List MaterialInfo → Option MaterialInfo → Option MaterialInfo
  | [], closest => closest
  | v :: vs, closest =>
    if v.url ∈ urls then
      phase2_loop audio_length urls vs closest
    else if audio_length + 1 < v.duration ∧ v.duration < audio_length * (3 / 2) + 1 then
      some v
    else
      phase2_loop audio_length urls vs closest

/-- Embeds `MaterialHelper._find_closest_video` (base.py lines 24-46): the
two loops run sequentially over the same candidate list, the second one
starting from the first one's result. -/
def find_closest_video (video_items : List MaterialInfo) (audio_length : ℚ)
    (urls : List String) : Option MaterialInfo :=
  phase2_loop audio_length urls video_items
    (phase1_loop audio_length urls video_items none none)

/-- The phase-2 acceptance window of `_find_closest_video`, as a Boolean
predicate on a candidate: unused URL and
`audio_length + 1 < duration < audio_length * 1.5 + 1`. -/
def in_window (t : ℚ) (urls : List String) (v : MaterialInfo) : Bool :=
  decide (v.url ∉ urls) && decide (t + 1 < v.duration ∧ v.duration < t * (3 / 2) + 1)

lemma phase1_loop_isSome_acc (t : ℚ) (urls : List String) :
    ∀ (items : List MaterialInfo) (c : MaterialInfo) (m : Option ℚ),
    (phase1_loop t urls items (some c) m).isSome := by
  intro items
  induction items with
  | nil => intro c m; rfl
  | cons v vs ih =>
    intro c m
    simp only [phase1_loop]
    by_cases h1 : v.url ∈ urls
    · simpa [h1] using ih c m
    · by_cases h2 : t + 1 < v.duration
      · by_cases h3 : diff_lt (v.duration - t) m = true
        · simpa [h1, h2, h3] using ih v _
        · simpa [h1, h2, h3] using ih c m
      · simpa [h1, h2] using ih c m

lemma phase1_loop_none_sound (t : ℚ) (urls : List String) :
    ∀ (items : List MaterialInfo),
    phase1_loop t urls items none none = none →
    ∀ v ∈ items, ¬ (v.url ∉ urls ∧ t + 1 < v.duration) := by
  intro items
  induction items with
  | nil => intro _ v hv; exact absurd hv (List.not_mem_nil v)
  | cons v vs ih =>
    intro hnone w hw
    by_cases h1 : v.url ∈ urls
    · simp only [phase1_loop, if_pos h1] at hnone
      rcases List.mem_cons.mp hw with rfl | hw'
      · exact fun hc => hc.1 h1
      · exact ih hnone w hw'
    · by_cases h2 : t + 1 < v.duration
      · exfalso
        have hstep : phase1_loop t urls (v :: vs) none none
            = phase1_loop t urls vs (some v) (some (v.duration - t)) := by
          simp [phase1_loop, h1, h2, diff_lt]
        rw [hstep] at hnone
        have := phase1_loop_isSome_acc t urls vs v (some (v.duration - t))
        rw [hnone] at this
        exact absurd this (by simp)
      · simp only [phase1_loop, if_neg h1, if_neg h2] at hnone
        rcases List.mem_cons.mp hw with rfl | hw'
        · exact fun hc => h2 hc.2
        · exact ih hnone w hw'

lemma phase1_loop_min_acc (t : ℚ) (urls : List String) :
    ∀ (items : List MaterialInfo) (c : MaterialInfo),
    c.url ∉ urls → t + 1 < c.duration →
    ∀ r, phase1_loop t urls items (some c) (some (c.duration - t)) = some r →
      (r = c ∨ (r ∈ items ∧ r.url ∉ urls ∧ t + 1 < r.duration)) ∧
      r.duration ≤ c.duration ∧
      ∀ w ∈ items, w.url ∉ urls → t + 1 < w.duration → r.duration ≤ w.duration := by
  intro items
  induction items with
  | nil =>
    intro c hcu hcd r hr
    simp only [phase1_loop, Option.some.injEq] at hr
    subst hr
    exact ⟨Or.inl rfl, le_refl _, by intro w hw; exact absurd hw (List.not_mem_nil w)⟩
  | cons v vs ih =>
    intro c hcu hcd r hr
    by_cases h1 : v.url ∈ urls
    · simp only [phase1_loop, if_pos h1] at hr
      obtain ⟨hmem, hle, hmin⟩ := ih c hcu hcd r hr
      refine ⟨?_, hle, ?_⟩
      · rcases hmem with rfl | ⟨hm, hp⟩
        · exact Or.inl rfl
        · exact Or.inr ⟨List.mem_cons_of_mem v hm, hp⟩
      · intro w hw hwu hwd
        rcases List.mem_cons.mp hw with rfl | hw'
        · exact absurd h1 hwu
        · exact hmin w hw' hwu hwd
    · by_cases h2 : t + 1 < v.duration
      · by_cases h3 : v.duration - t < c.duration - t
        · have hstep : phase1_loop t urls (v :: vs) (some c) (some (c.duration - t))
              = phase1_loop t urls vs (some v) (some (v.duration - t)) := by
            simp [phase1_loop, h1, h2, diff_lt, h3]
          rw [hstep] at hr
          obtain ⟨hmem, hle, hmin⟩ := ih v h1 h2 r hr
          have hvc : v.duration ≤ c.duration := le_of_lt (by linarith)
          refine ⟨?_, le_trans hle hvc, ?_⟩
          · rcases hmem with rfl | ⟨hm, hp⟩
            · exact Or.inr ⟨List.mem_cons_self _ _, h1, h2⟩
            · exact Or.inr ⟨List.mem_cons_of_mem v hm, hp⟩
          · intro w hw hwu hwd
            rcases List.mem_cons.mp hw with rfl | hw'
            · exact hle
            · exact hmin w hw' hwu hwd
        · have hstep : phase1_loop t urls (v :: vs) (some c) (some (c.duration - t))
              = phase1_loop t urls vs (some c) (some (c.duration - t)) := by
            simp [phase1_loop, h1, h2, diff_lt, h3]
          rw [hstep] at hr
          obtain ⟨hmem, hle, hmin⟩ := ih c hcu hcd r hr
          have hcv : c.duration ≤ v.duration := by linarith [not_lt.mp h3]
          refine ⟨?_, hle, ?_⟩
          · rcases hmem with rfl | ⟨hm, hp⟩
            · exact Or.inl rfl
            · exact Or.inr ⟨List.mem_cons_of_mem v hm, hp⟩
          · intro w hw hwu hwd
            rcases List.mem_cons.mp hw with rfl | hw'
            · exact le_trans hle hcv
            · exact hmin w hw' hwu hwd
      · simp only [phase1_loop, if_neg h1, if_neg h2] at hr
        obtain ⟨hmem, hle, hmin⟩ := ih c hcu hcd r hr
        refine ⟨?_, hle, ?_⟩
        · rcases hmem with rfl | ⟨hm, hp⟩
          · exact Or.inl rfl
          · exact Or.inr ⟨List.mem_cons_of_mem v hm, hp⟩
        · intro w hw hwu hwd
          rcases List.mem_cons.mp hw with rfl | hw'
          · exact absurd hwd h2
          · exact hmin w hw' hwu hwd

lemma phase1_loop_min (t : ℚ) (urls : List String) :
    ∀ (items : List MaterialInfo) (r : MaterialInfo),
    phase1_loop t urls items none none = some r →
      (r ∈ items ∧ r.url ∉ urls ∧ t + 1 < r.duration) ∧
      ∀ w ∈ items, w.url ∉ urls → t + 1 < w.duration → r.duration ≤ w.duration := by
  intro items
  induction items with
  | nil => intro r hr; exact absurd hr (by simp [phase1_loop])
  | cons v vs ih =>
    intro r hr
    by_cases h1 : v.url ∈ urls
    · simp only [phase1_loop, if_pos h1] at hr
      obtain ⟨⟨hm, hp⟩, hmin⟩ := ih r hr
      refine ⟨⟨List.mem_cons_of_mem v hm, hp⟩, ?_⟩
      intro w hw hwu hwd
      rcases List.mem_cons.mp hw with rfl | hw'
      · exact absurd h1 hwu
      · exact hmin w hw' hwu hwd
    · by_cases h2 : t + 1 < v.duration
      · have hstep : phase1_loop t urls (v :: vs) none none
            = phase1_loop t urls vs (some v) (some (v.duration - t)) := by
          simp [phase1_loop, h1, h2, diff_lt]
        rw [hstep] at hr
        obtain ⟨hmem, hle, hmin⟩ := phase1_loop_min_acc t urls vs v h1 h2 r hr
        refine ⟨?_, ?_⟩
        · rcases hmem with rfl | ⟨hm, hp⟩
          · exact ⟨List.mem_cons_self _ _, h1, h2⟩
          · exact ⟨List.mem_cons_of_mem v hm, hp⟩
        · intro w hw hwu hwd
          rcases List.mem_cons.mp hw with rfl | hw'
          · exact hle
          · exact hmin w hw' hwu hwd
      · simp only [phase1_loop, if_neg h1, if_neg h2] at hr
        obtain ⟨⟨hm, hp⟩, hmin⟩ := ih r hr
        refine ⟨⟨List.mem_cons_of_mem v hm, hp⟩, ?_⟩
        intro w hw hwu hwd
        rcases List.mem_cons.mp hw with rfl | hw'
        · exact absurd hwd h2
        · exact hmin w hw' hwu hwd

lemma phase2_loop_eq_find (t : ℚ) (urls : List String) :
    ∀ (items : List MaterialInfo) (acc : Option MaterialInfo),
    phase2_loop t urls items acc =
      match List.find? (in_window t urls) items with
      | some v => some v
      | none => acc := by
  intro items
  induction items with
  | nil => intro acc; rfl
  | cons v vs ih =>
    intro acc
    by_cases h1 : v.url ∈ urls
    · have hw : ¬ (in_window t urls v = true) := by simp [in_window, h1]
      simp only [phase2_loop, if_pos h1, List.find?_cons_of_neg vs hw]
      exact ih acc
    · by_cases h2 : t + 1 < v.duration ∧ v.duration < t * (3 / 2) + 1
      · have hw : in_window t urls v = true := by simp [in_window, h1, h2]
        simp only [phase2_loop, if_neg h1, if_pos h2, List.find?_cons_of_pos vs hw]
      · have hw : ¬ (in_window t urls v = true) := by
          simp only [in_window, Bool.and_eq_true, decide_eq_true_eq]
          exact fun hc => h2 hc.2
        simp only [phase2_loop, if_neg h1, if_neg h2, List.find?_cons_of_neg vs hw]
        exact ih acc

lemma find_closest_video_eq_cases (items : List MaterialInfo) (t : ℚ) (urls : List String) :
    find_closest_video items t urls =
      match List.find? (in_window t urls) items with
      | some v => some v
      | none => phase1_loop t urls items none none :=
  phase2_loop_eq_find t urls items _

lemma find_closest_video_fresh (items : List MaterialInfo) (t : ℚ) (urls : List String)
    (v : MaterialInfo) (h : find_closest_video items t urls = some v) :
    v.url ∉ urls ∧ t + 1 < v.duration := by
  rw [find_closest_video_eq_cases] at h
  cases hf : List.find? (in_window t urls) items with
  | some w =>
    rw [hf] at h
    cases h
    have := List.find?_some hf
    simp only [in_window, Bool.and_eq_true, decide_eq_true_eq] at this
    exact ⟨this.1, this.2.1⟩
  | none =>
    rw [hf] at h
    exact ((phase1_loop_min t urls items v h).1).2

/-- C1 counterexample: at target 5 with no used URLs and candidates of
durations 8 and 7 (in that order), both are eligible with duration above
`target + 1 = 6`, and the 7-second clip has the strictly smaller
`duration - target`; yet `_find_closest_video` returns the 8-second clip,
because the phase-2 scan runs unconditionally and overwrites the phase-1
best fit with the first candidate inside the window `(6, 8.5)`. -/
theorem find_closest_video_best_fit_cex :
    find_closest_video [⟨"p", "a", 8, ""⟩, ⟨"p", "b", 7, ""⟩] 5 [] = some ⟨"p", "a", 8, ""⟩
    ∧ (⟨"p", "b", 7, ""⟩ : MaterialInfo) ∈ [(⟨"p", "a", 8, ""⟩ : MaterialInfo), ⟨"p", "b", 7, ""⟩]
    ∧ "b" ∉ ([] : List String)
    ∧ (5 : ℚ) + 1 < 7
    ∧ ((7 : ℚ) - 5) < ((8 : ℚ) - 5)
    ∧ (⟨"p", "a", 8, ""⟩ : MaterialInfo) ≠ ⟨"p", "b", 7, ""⟩ := by
  refine ⟨?_, ?_, ?_, ?_, ?_, ?_⟩ <;>
    norm_num [find_closest_video, phase1_loop, phase2_loop, diff_lt, MaterialInfo.mk.injEq]

/-- C1 (amended): phase 2 takes precedence over phase 1, not the other way
round. `_find_closest_video` returns the first eligible candidate in original
order satisfying `target + 1 < duration < target * 1.5 + 1` whenever one
exists; only when no candidate lies in that window does it return the
best-fit-above result: an eligible candidate with `duration > target + 1`
of minimal `duration - target`, or nothing when no candidate is above the
threshold. -/
theorem find_closest_video_phase2_overrides :
    ∀ (items : List MaterialInfo) (t : ℚ) (urls : List String),
      (∀ v, List.find? (in_window t urls) items = some v →
          find_closest_video items t urls = some v)
      ∧ (List.find? (in_window t urls) items = none →
          (∀ r, find_closest_video items t urls = some r →
              r ∈ items ∧ r.url ∉ urls ∧ t + 1 < r.duration ∧
              ∀ w ∈ items, w.url ∉ urls → t + 1 < w.duration → r.duration ≤ w.duration)
          ∧ ((∃ w ∈ items, w.url ∉ urls ∧ t + 1 < w.duration) →
              ∃ r, find_closest_video items t urls = some r)) := by
  intro items t urls
  constructor
  · intro v hv
    rw [find_closest_video_eq_cases, hv]
  · intro hnone
    constructor
    · intro r hr
      rw [find_closest_video_eq_cases, hnone] at hr
      obtain ⟨⟨hm, hu, hd⟩, hmin⟩ := phase1_loop_min t urls items r hr
      exact ⟨hm, hu, hd, hmin⟩
    · rintro ⟨w, hw, hwu, hwd⟩
      rw [find_closest_video_eq_cases, hnone]
      cases hp : phase1_loop t urls items none none with
      | none => exact absurd ⟨hwu, hwd⟩ (phase1_loop_none_sound t urls items hp w hw)
      | some r => exact ⟨r, rfl⟩

/-- Witness for the amended C1 at a concrete input: the first in-window
candidate (duration 8) is returned. -/
theorem find_closest_video_phase2_overrides_witness :
    find_closest_video [⟨"p", "a", 8, ""⟩, ⟨"p", "b", 7, ""⟩] 5 [] = some ⟨"p", "a", 8, ""⟩ :=
  (find_closest_video_phase2_overrides [⟨"p", "a", 8, ""⟩, ⟨"p", "b", 7, ""⟩] 5 []).1
    ⟨"p", "a", 8, ""⟩ (by norm_num [List.find?, in_window])

/-- C2: concrete selection instances from the spec: target 5.0, no used
URLs; durations {4.0, 6.5, 9.0} select the 6.5 candidate, and durations
{4.0, 9.0} select the 9.0 candidate. -/
theorem find_closest_video_concrete_instances :
    find_closest_video [⟨"p", "u1", 4, ""⟩, ⟨"p", "u2", 13 / 2, ""⟩, ⟨"p", "u3", 9, ""⟩] 5 []
      = some ⟨"p", "u2", 13 / 2, ""⟩
    ∧ find_closest_video [⟨"p", "u1", 4, ""⟩, ⟨"p", "u3", 9, ""⟩] 5 []
      = some ⟨"p", "u3", 9, ""⟩ := by
  constructor <;> norm_num [find_closest_video, phase1_loop, phase2_loop, diff_lt]

/-- C10: whenever `_find_closest_video` returns a candidate, that
candidate's URL is not in the used-URL set and its duration is strictly
greater than `target + 1`: both selection loops only ever pick candidates
passing those two tests. -/
theorem find_closest_video_fresh_and_above :
    ∀ (items : List MaterialInfo) (t : ℚ) (urls : List String) (v : MaterialInfo),
      find_closest_video items t urls = some v →
      v.url ∉ urls ∧ t + 1 < v.duration :=
  fun items t urls v h => find_closest_video_fresh items t urls v h

/-- Witness for C10 at a concrete input. -/
theorem find_closest_video_fresh_and_above_witness :
    "u" ∉ ([] : List String) ∧ (5 : ℚ) + 1 < 9 :=
  find_closest_video_fresh_and_above [⟨"p", "u", 9, ""⟩] 5 [] ⟨"p", "u", 9, ""⟩
    (by norm_num [find_closest_video, phase1_loop, phase2_loop, diff_lt])

/-- Inner `for search_term in search_terms` loop of `MaterialHelper.get_videos`
(base.py lines 63-71) for one page: call the search oracle, run
`_find_closest_video`, and stop at the first hit. -/
def search_term_scan (search : String → ℕ → List MaterialInfo) (audio_length : ℚ)
    (urls : List String) (page : ℕ) : List String → Option MaterialInfo
  | [] => none
  | term :: rest =>
    match find_closest_video (search term page) audio_length urls with
    | some v => some v
    | none => search_term_scan search audio_length urls page rest

/-- `for page in range(1, max_page + 1)` loop of `MaterialHelper.get_videos`
(base.py lines 61-74): the `for ... else ... break` pattern means the first
page whose term scan hits wins and later pages are not visited. -/
def page_scan (search : String → ℕ → List MaterialInfo) (audio_length : ℚ)
    (urls : List String) (terms : List String) : List ℕ → Option MaterialInfo
  | [] => none
  | page :: rest =>
    match search_term_scan search audio_length urls page terms with
    | some v => some v
    | none => page_scan search audio_length urls terms rest

/-- Per-segment loop of `MaterialHelper.get_videos` (base.py lines 59-76):
one `(search_terms, audio_length)` pair per narration segment; on a hit the
URL joins the run-scoped `urls` set and the video joins the result; if no
page yields a hit the run fails with `ValueError("No video found")`. -/
def MaterialHelper.get_videos_loop (search : String → ℕ → List MaterialInfo) (max_page : ℕ) :
    List (List String × ℚ) → List String → Except String (List MaterialInfo)
  | [], _ => .ok []
  | (terms, audio_length) :: rest, urls =>
    match page_scan search audio_length urls terms (List.range' 1 max_page) with
    | some v =>
      match MaterialHelper.get_videos_loop search max_page rest (v.url :: urls) with
      | .ok vs => .ok (v :: vs)
      | .error e => .error e
    | none => .error "No video found"

/-- Download loop of `MaterialHelper.get_videos` (base.py lines 77-83):
`save_video` is abstracted as an oracle returning the local path or the
failure sentinel `""`; an empty path raises `ValueError("Video has no path")`,
otherwise the video's `video_path` is set. -/
def set_video_paths (save : String → String) : List MaterialInfo → Except String (List MaterialInfo)
  | [] => .ok []
  | v :: vs =>
    if save v.url ≠ "" then
      match set_video_paths save vs with
      | .ok r => .ok ({ v with video_path := save v.url } :: r)
      | .error e => .error e
    else .error "Video has no path"

/-- Embeds `MaterialHelper.get_videos` (base.py lines 56-84): resolve one
clip per `(audio_length, search_terms)` pair (the Python `zip`), then
download each selected clip. -/
def MaterialHelper.get_videos (search : String → ℕ → List MaterialInfo) (save : String → String)
    (max_page : ℕ) (audio_lengths : List ℚ) (search_terms_list : List (List String)) :
    Except String (List MaterialInfo) :=
  match MaterialHelper.get_videos_loop search max_page
      (search_terms_list.zip audio_lengths) [] with
  | .ok vs => set_video_paths save vs
  | .error e => .error e

/-- A multi-source helper as seen by `MultiSourceAggregator` (multi_source.py):
a page cap and the two per-helper effects. `search` returning `none` models
`search_videos` raising, which the aggregator's `except` clause turns into
"this helper found nothing"; `save` returns the local path or `""`. -/
structure Helper where
  max_page : ℕ
  search : String → ℕ → Option (List MaterialInfo)
  save : String → String

/-- Result of scanning one helper for one segment: the used-URL set is
threaded through because a URL added before a failed download stays used. -/
inductive ScanRes where
  | raised (urls : List String)
  | found (video : MaterialInfo) (urls : List String)
  | none_found (urls : List String)
deriving Repr

/-- Inner `for term in search_terms` loop of `MultiSourceAggregator.get_videos`
(multi_source.py lines 422-433): on a hit the URL is marked used *before*
downloading; if the download fails the scan continues with the next term,
keeping the URL in the used set. A raising `search_videos` aborts the whole
helper (the surrounding `except`). -/
def multi_term_scan (h : Helper) (audio_length : ℚ) (page : ℕ) :
    List String → List String → ScanRes
  | urls, [] => .none_found urls
  | urls, term :: rest =>
    match h.search term page with
    | none => .raised urls
    | some items =>
      match find_closest_video items audio_length urls with
      | some c =>
        if h.save c.url ≠ "" then
          .found { c with video_path := h.save c.url } (c.url :: urls)
        else
          multi_term_scan h audio_length page (c.url :: urls) rest
      | none => multi_term_scan h audio_length page urls rest

/-- `for page in range(1, helper.max_page + 1)` loop of
`MultiSourceAggregator.get_videos` (multi_source.py lines 421-435). -/
def multi_page_scan (h : Helper) (audio_length : ℚ) (terms : List String) :
    List ℕ → List String → ScanRes
  | [], urls => .none_found urls
  | page :: rest, urls =>
    match multi_term_scan h audio_length page urls terms with
    | .found v u => .found v u
    | .raised u => .raised u
    | .none_found u => multi_page_scan h audio_length terms rest u

/-- `for helper_idx in order` loop of `MultiSourceAggregator.get_videos`
(multi_source.py lines 418-440): a helper that raises or finds nothing is
skipped and the scan continues with the next helper in the rotated order. -/
def helper_chain_scan (helpers : List Helper) (audio_length : ℚ) (terms : List String) :
    List ℕ → List String → Option MaterialInfo × List String
  | [], urls => (none, urls)
  | hi :: rest, urls =>
    match helpers[hi]? with
    | some h =>
      match multi_page_scan h audio_length terms (List.range' 1 h.max_page) urls with
      | .found v u => (some v, u)
      | .raised u => helper_chain_scan helpers audio_length terms rest u
      | .none_found u => helper_chain_scan helpers audio_length terms rest u
    | none => helper_chain_scan helpers audio_length terms rest urls

/-- Helper rotation of `MultiSourceAggregator.get_videos` (multi_source.py
lines 414-416): `order = list(range(n)); start = idx % n;
order = order[start:] + order[:start]`. -/
def helper_order (idx n : ℕ) : List ℕ :=
  (List.range n).drop (idx % n) ++ (List.range n).take (idx % n)

/-- Per-segment loop of `MultiSourceAggregator.get_videos` (multi_source.py
lines 410-443), `idx` being the running `enumerate` index; a segment no
helper can serve fails the whole run. -/
def MultiSourceAggregator.get_videos_loop (helpers : List Helper) :
    ℕ → List (List String × ℚ) → List String → Except String (List MaterialInfo)
  | _, [], _ => .ok []
  | idx, (terms, audio_length) :: rest, urls =>
    match helper_chain_scan helpers audio_length terms (helper_order idx helpers.length) urls with
    | (some v, u) =>
      match MultiSourceAggregator.get_videos_loop helpers (idx + 1) rest u with
      | .ok vs => .ok (v :: vs)
      | .error e => .error e
    | (none, _) => .error "No video found across all sources"

/-- Embeds `MultiSourceAggregator.get_videos` (multi_source.py lines 397-445). -/
def MultiSourceAggregator.get_videos (helpers : List Helper) (audio_lengths : List ℚ)
    (search_terms_list : List (List String)) : Except String (List MaterialInfo) :=
  MultiSourceAggregator.get_videos_loop helpers 0 (search_terms_list.zip audio_lengths) []

lemma search_term_scan_fresh (search : String → ℕ → List MaterialInfo) (t : ℚ)
    (urls : List String) (page : ℕ) :
    ∀ (terms : List String) (v : MaterialInfo),
    search_term_scan search t urls page terms = some v → v.url ∉ urls := by
  intro terms
  induction terms with
  | nil => intro v hv; exact absurd hv (by simp [search_term_scan])
  | cons term rest ih =>
    intro v hv
    simp only [search_term_scan] at hv
    cases hf : find_closest_video (search term page) t urls with
    | some w =>
      rw [hf] at hv
      cases hv
      exact (find_closest_video_fresh _ t urls _ hf).1
    | none =>
      rw [hf] at hv
      exact ih v hv

lemma page_scan_fresh (search : String → ℕ → List MaterialInfo) (t : ℚ)
    (urls : List String) (terms : List String) :
    ∀ (pages : List ℕ) (v : MaterialInfo),
    page_scan search t urls terms pages = some v → v.url ∉ urls := by
  intro pages
  induction pages with
  | nil => intro v hv; exact absurd hv (by simp [page_scan])
  | cons page rest ih =>
    intro v hv
    simp only [page_scan] at hv
    cases hs : search_term_scan search t urls page terms with
    | some w =>
      rw [hs] at hv
      cases hv
      exact search_term_scan_fresh search t urls page terms v hs
    | none =>
      rw [hs] at hv
      exact ih v hv

lemma get_videos_loop_nodup (search : String → ℕ → List MaterialInfo) (max_page : ℕ) :
    ∀ (segments : List (List String × ℚ)) (urls : List String) (vs : List MaterialInfo),
    MaterialHelper.get_videos_loop search max_page segments urls = .ok vs →
    (∀ v ∈ vs, v.url ∉ urls) ∧ (vs.map (fun v => v.url)).Nodup := by
  intro segments
  induction segments with
  | nil =>
    intro urls vs h
    simp only [MaterialHelper.get_videos_loop] at h
    cases h
    exact ⟨by simp, by simp⟩
  | cons seg rest ih =>
    intro urls vs h
    obtain ⟨terms, audio_length⟩ := seg
    simp only [MaterialHelper.get_videos_loop] at h
    cases hp : page_scan search audio_length urls terms (List.range' 1 max_page) with
    | none => rw [hp] at h; exact absurd h (by simp)
    | some v =>
      simp only [hp] at h
      cases hrest : MaterialHelper.get_videos_loop search max_page rest (v.url :: urls) with
      | error e => simp [hrest] at h
      | ok ws =>
        simp only [hrest, Except.ok.injEq] at h
        subst h
        obtain ⟨hfresh, hnodup⟩ := ih (v.url :: urls) ws hrest
        have hvurls : v.url ∉ urls := page_scan_fresh search audio_length urls terms _ v hp
        refine ⟨?_, ?_⟩
        · intro w hw
          rcases List.mem_cons.mp hw with rfl | hw'
          · exact hvurls
          · exact fun hc => hfresh w hw' (List.mem_cons_of_mem _ hc)
        · refine List.nodup_cons.mpr ⟨?_, hnodup⟩
          intro hc
          obtain ⟨w, hw, hwu⟩ := List.mem_map.mp hc
          exact hfresh w hw (by rw [hwu]; exact List.mem_cons_self _ _)

lemma set_video_paths_map_url (save : String → String) :
    ∀ (vs r : List MaterialInfo), set_video_paths save vs = .ok r →
    r.map (fun v => v.url) = vs.map (fun v => v.url) := by
  intro vs
  induction vs with
  | nil =>
    intro r h
    simp only [set_video_paths] at h
    cases h
    rfl
  | cons v rest ih =>
    intro r h
    simp only [set_video_paths] at h
    by_cases hs : save v.url ≠ ""
    · rw [if_pos hs] at h
      cases hrest : set_video_paths save rest with
      | error e => rw [hrest] at h; exact absurd h (by simp)
      | ok ws =>
        rw [hrest] at h
        cases h
        simp [ih ws hrest]
    · rw [if_neg hs] at h
      exact absurd h (by simp)

/-- The used-URL set carried by a `ScanRes`. -/
def ScanRes.urls : ScanRes → List String
  | .raised u => u
  | .found _ u => u
  | .none_found u => u

lemma multi_term_scan_mono (h : Helper) (t : ℚ) (page : ℕ) :
    ∀ (terms urls : List String) (res : ScanRes),
    multi_term_scan h t page urls terms = res → urls ⊆ res.urls := by
  intro terms
  induction terms with
  | nil =>
    intro urls res hres
    simp only [multi_term_scan] at hres
    subst hres
    simp [ScanRes.urls]
  | cons term rest ih =>
    intro urls res hres
    simp only [multi_term_scan] at hres
    cases hsearch : h.search term page with
    | none =>
      simp only [hsearch] at hres
      subst hres
      simp [ScanRes.urls]
    | some items =>
      simp only [hsearch] at hres
      cases hf : find_closest_video items t urls with
      | some c =>
        simp only [hf] at hres
        by_cases hs : h.save c.url ≠ ""
        · rw [if_pos hs] at hres
          subst hres
          simp only [ScanRes.urls]
          exact List.subset_cons_of_subset _ (List.Subset.refl urls)
        · rw [if_neg hs] at hres
          exact fun x hx => ih (c.url :: urls) res hres (List.mem_cons_of_mem _ hx)
      | none =>
        simp only [hf] at hres
        exact ih urls res hres

lemma multi_term_scan_found (h : Helper) (t : ℚ) (page : ℕ) :
    ∀ (terms urls : List String) (v : MaterialInfo) (u : List String),
    multi_term_scan h t page urls terms = .found v u →
    v.url ∉ urls ∧ v.url ∈ u ∧ urls ⊆ u := by
  intro terms
  induction terms with
  | nil => intro urls v u hv; exact absurd hv (by simp [multi_term_scan])
  | cons term rest ih =>
    intro urls v u hv
    simp only [multi_term_scan] at hv
    cases hsearch : h.search term page with
    | none => simp [hsearch] at hv
    | some items =>
      simp only [hsearch] at hv
      cases hf : find_closest_video items t urls with
      | some c =>
        simp only [hf] at hv
        have hcu : c.url ∉ urls := (find_closest_video_fresh items t urls c hf).1
        by_cases hs : h.save c.url ≠ ""
        · rw [if_pos hs] at hv
          cases hv
          exact ⟨hcu, List.mem_cons_self _ _, List.subset_cons_of_subset _ (List.Subset.refl urls)⟩
        · rw [if_neg hs] at hv
          obtain ⟨hvu, hvin, hsub⟩ := ih (c.url :: urls) v u hv
          refine ⟨fun hc => hvu (List.mem_cons_of_mem _ hc), hvin, ?_⟩
          exact fun x hx => hsub (List.mem_cons_of_mem _ hx)
      | none =>
        simp only [hf] at hv
        exact ih urls v u hv

lemma multi_page_scan_mono (h : Helper) (t : ℚ) (terms : List String) :
    ∀ (pages : List ℕ) (urls : List String) (res : ScanRes),
    multi_page_scan h t terms pages urls = res → urls ⊆ res.urls := by
  intro pages
  induction pages with
  | nil =>
    intro urls res hres
    simp only [multi_page_scan] at hres
    subst hres
    simp [ScanRes.urls]
  | cons page rest ih =>
    intro urls res hres
    simp only [multi_page_scan] at hres
    cases hscan : multi_term_scan h t page urls terms with
    | found v u =>
      simp only [hscan] at hres
      subst hres
      exact multi_term_scan_mono h t page terms urls _ hscan
    | raised u =>
      simp only [hscan] at hres
      subst hres
      exact multi_term_scan_mono h t page terms urls _ hscan
    | none_found u =>
      simp only [hscan] at hres
      have h1 : urls ⊆ u := multi_term_scan_mono h t page terms urls _ hscan
      exact fun x hx => ih u res hres (h1 hx)

lemma multi_page_scan_found (h : Helper) (t : ℚ) (terms : List String) :
    ∀ (pages : List ℕ) (urls : List String) (v : MaterialInfo) (u : List String),
    multi_page_scan h t terms pages urls = .found v u →
    v.url ∉ urls ∧ v.url ∈ u ∧ urls ⊆ u := by
  intro pages
  induction pages with
  | nil => intro urls v u hv; exact absurd hv (by simp [multi_page_scan])
  | cons page rest ih =>
    intro urls v u hv
    simp only [multi_page_scan] at hv
    cases hscan : multi_term_scan h t page urls terms with
    | found w u2 =>
      simp only [hscan] at hv
      cases hv
      exact multi_term_scan_found h t page terms urls v u hscan
    | raised u2 => simp [hscan] at hv
    | none_found u2 =>
      simp only [hscan] at hv
      obtain ⟨hvu, hvin, hsub⟩ := ih u2 v u hv
      have hmono : urls ⊆ u2 := multi_term_scan_mono h t page terms urls _ hscan
      exact ⟨fun hc => hvu (hmono hc), hvin, fun x hx => hsub (hmono hx)⟩

lemma helper_chain_scan_props (helpers : List Helper) (t : ℚ) (terms : List String) :
    ∀ (order : List ℕ) (urls : List String),
    (∀ v u, helper_chain_scan helpers t terms order urls = (some v, u) →
        v.url ∉ urls ∧ v.url ∈ u ∧ urls ⊆ u)
    ∧ (∀ u, helper_chain_scan helpers t terms order urls = (none, u) → urls ⊆ u) := by
  intro order
  induction order with
  | nil =>
    intro urls
    constructor
    · intro v u hv
      simp [helper_chain_scan] at hv
    · intro u hu
      simp only [helper_chain_scan, Prod.mk.injEq] at hu
      rw [← hu.2]
      exact List.Subset.refl urls
  | cons hi rest ih =>
    intro urls
    constructor
    · intro v u hv
      simp only [helper_chain_scan] at hv
      cases hh : helpers[hi]? with
      | none =>
        simp only [hh] at hv
        exact ((ih urls).1) v u hv
      | some hel =>
        simp only [hh] at hv
        cases hscan : multi_page_scan hel t terms (List.range' 1 hel.max_page) urls with
        | found w u2 =>
          simp only [hscan, Prod.mk.injEq] at hv
          obtain ⟨hw, hu⟩ := hv
          cases hw
          rw [← hu]
          exact multi_page_scan_found hel t terms _ urls v u2 hscan
        | raised u2 =>
          simp only [hscan] at hv
          have hmono : urls ⊆ u2 := multi_page_scan_mono hel t terms _ urls _ hscan
          obtain ⟨hvu, hvin, hsub⟩ := ((ih u2).1) v u hv
          exact ⟨fun hc => hvu (hmono hc), hvin, fun x hx => hsub (hmono hx)⟩
        | none_found u2 =>
          simp only [hscan] at hv
          have hmono : urls ⊆ u2 := multi_page_scan_mono hel t terms _ urls _ hscan
          obtain ⟨hvu, hvin, hsub⟩ := ((ih u2).1) v u hv
          exact ⟨fun hc => hvu (hmono hc), hvin, fun x hx => hsub (hmono hx)⟩
    · intro u hu
      simp only [helper_chain_scan] at hu
      cases hh : helpers[hi]? with
      | none =>
        simp only [hh] at hu
        exact ((ih urls).2) u hu
      | some hel =>
        simp only [hh] at hu
        cases hscan : multi_page_scan hel t terms (List.range' 1 hel.max_page) urls with
        | found w u2 => simp [hscan] at hu
        | raised u2 =>
          simp only [hscan] at hu
          have hmono : urls ⊆ u2 := multi_page_scan_mono hel t terms _ urls _ hscan
          exact fun x hx => ((ih u2).2) u hu (hmono hx)
        | none_found u2 =>
          simp only [hscan] at hu
          have hmono : urls ⊆ u2 := multi_page_scan_mono hel t terms _ urls _ hscan
          exact fun x hx => ((ih u2).2) u hu (hmono hx)

lemma multi_get_videos_loop_nodup (helpers : List Helper) :
    ∀ (segments : List (List String × ℚ)) (idx : ℕ) (urls : List String)
      (vs : List MaterialInfo),
    MultiSourceAggregator.get_videos_loop helpers idx segments urls = .ok vs →
    (∀ v ∈ vs, v.url ∉ urls) ∧ (vs.map (fun v => v.url)).Nodup := by
  intro segments
  induction segments with
  | nil =>
    intro idx urls vs h
    simp only [MultiSourceAggregator.get_videos_loop] at h
    cases h
    exact ⟨by simp, by simp⟩
  | cons seg rest ih =>
    intro idx urls vs h
    obtain ⟨terms, audio_length⟩ := seg
    simp only [MultiSourceAggregator.get_videos_loop] at h
    cases hscan : helper_chain_scan helpers audio_length terms
        (helper_order idx helpers.length) urls with
    | mk ov u =>
      cases ov with
      | none => simp [hscan] at h
      | some v =>
        simp only [hscan] at h
        cases hrest : MultiSourceAggregator.get_videos_loop helpers (idx + 1) rest u with
        | error e => simp [hrest] at h
        | ok ws =>
          simp only [hrest, Except.ok.injEq] at h
          subst h
          obtain ⟨hvu, hvin, hsub⟩ :=
            ((helper_chain_scan_props helpers audio_length terms
                (helper_order idx helpers.length) urls).1) v u hscan
          obtain ⟨hfresh, hnodup⟩ := ih (idx + 1) u ws hrest
          refine ⟨?_, ?_⟩
          · intro w hw
            rcases List.mem_cons.mp hw with rfl | hw'
            · exact hvu
            · exact fun hc => hfresh w hw' (hsub hc)
          · refine List.nodup_cons.mpr ⟨?_, hnodup⟩
            intro hc
            obtain ⟨w, hw, hwu⟩ := List.mem_map.mp hc
            exact hfresh w hw (by rw [hwu]; exact hvin)

/-- C3: in one run of `get_videos` — single-helper (`MaterialHelper`) or
multi-source (`MultiSourceAggregator`) — the resolved material list has
pairwise distinct URLs: every selected candidate's URL is put into the
run-scoped used-URL set, and `_find_closest_video` never returns a
candidate whose URL is in that set. -/
theorem get_videos_urls_nodup :
    (∀ (search : String → ℕ → List MaterialInfo) (save : String → String)
       (max_page : ℕ) (audio_lengths : List ℚ) (search_terms_list : List (List String))
       (vs : List MaterialInfo),
      MaterialHelper.get_videos search save max_page audio_lengths search_terms_list = .ok vs →
      (vs.map (fun v => v.url)).Nodup)
    ∧ (∀ (helpers : List Helper) (audio_lengths : List ℚ)
         (search_terms_list : List (List String)) (vs : List MaterialInfo),
      MultiSourceAggregator.get_videos helpers audio_lengths search_terms_list = .ok vs →
      (vs.map (fun v => v.url)).Nodup) := by
  constructor
  · intro search save max_page audio_lengths search_terms_list vs h
    simp only [MaterialHelper.get_videos] at h
    cases hloop : MaterialHelper.get_videos_loop search max_page
        (search_terms_list.zip audio_lengths) [] with
    | error e => simp [hloop] at h
    | ok ws =>
      simp only [hloop] at h
      rw [set_video_paths_map_url save ws vs h]
      exact (get_videos_loop_nodup search max_page _ [] ws hloop).2
  · intro helpers audio_lengths search_terms_list vs h
    exact (multi_get_videos_loop_nodup helpers _ 0 [] vs h).2

/-- Witness for C3 on concrete one-segment runs of both resolvers. -/
theorem get_videos_urls_nodup_witness :
    (List.map (fun v => v.url) [(⟨"p", "u", 9, "f"⟩ : MaterialInfo)]).Nodup
    ∧ (List.map (fun v => v.url) [(⟨"q", "u2", 9, "g"⟩ : MaterialInfo)]).Nodup := by
  constructor
  · exact get_videos_urls_nodup.1 (fun _ _ => [⟨"p", "u", 9, ""⟩]) (fun _ => "f") 1 [5] [["t"]]
      [⟨"p", "u", 9, "f"⟩]
      (by norm_num [MaterialHelper.get_videos, MaterialHelper.get_videos_loop, set_video_paths,
        page_scan, search_term_scan, List.range', find_closest_video, phase1_loop, phase2_loop,
        diff_lt, show ("f" : String) ≠ "" from by decide])
  · exact get_videos_urls_nodup.2 [⟨1, fun _ _ => some [⟨"q", "u2", 9, ""⟩], fun _ => "g"⟩] [5]
      [["t"]] [⟨"q", "u2", 9, "g"⟩]
      (by norm_num [MultiSourceAggregator.get_videos, MultiSourceAggregator.get_videos_loop,
        helper_chain_scan, helper_order, multi_page_scan, multi_term_scan, List.range',
        find_closest_video, phase1_loop, phase2_loop, diff_lt,
        show ("g" : String) ≠ "" from by decide])

/-- C9: in multi-source mode the helper scan of segment `idx` with `n`
helpers starts at helper index `idx % n` (the head of the rotated order
consumed by `MultiSourceAggregator.get_videos_loop`), and with 3 helpers and
5 segments the first-tried helper indices are `[0, 1, 2, 0, 1]`. -/
theorem helper_order_rotation :
    (∀ (idx n : ℕ), 0 < n → (helper_order idx n).head? = some (idx % n))
    ∧ (List.range 5).map (fun i => (helper_order i 3).head?)
        = [some 0, some 1, some 2, some 0, some 1] := by
  constructor
  · intro idx n hn
    have hlt : idx % n < n := Nat.mod_lt idx hn
    rw [helper_order, List.head?_append]
    have hdrop : ((List.range n).drop (idx % n)).head? = some (idx % n) := by
      rw [List.head?_eq_getElem?, List.getElem?_drop, Nat.add_zero, List.getElem?_range hlt]
    rw [hdrop]
    rfl
  · decide

/-- Witness for C9 at a concrete segment index and helper count. -/
theorem helper_order_rotation_witness : (helper_order 4 3).head? = some (4 % 3) :=
  helper_order_rotation.1 4 3 (by decide)

/-- Embeds `TaskStatus` (src/api/models.py). -/
inductive TaskStatus where
  | pending
  | running
  | completed
  | failed
  | timeout
deriving DecidableEq, Repr

/-- Terminal statuses: Completed, Failed, Timeout (spec §4.2: no transition
leaves a terminal state). -/
def TaskStatus.isTerminal : TaskStatus → Bool
  | .completed => true
  | .failed => true
  | .timeout => true
  | _ => false

/-- The mutable columns of a `Task` row touched by `update_task_status`
(src/api/models.py / crud.py); timestamps are abstracted as naturals. -/
structure TaskRow where
  status : TaskStatus
  start_time : Option ℕ
  end_time : Option ℕ
  result : Option String
  error_message : Option String
deriving DecidableEq, Repr

/-- Embeds `update_task_status` (src/api/crud.py lines 40-49): set the
status; on RUNNING set `start_time = now` and clear `end_time`, otherwise
set `end_time = now`; `result` and `error_message` are overwritten with the
call's (possibly default `None`) arguments; `now` stands for
`datetime.now()`. -/
def update_task_status (task : TaskRow) (status : TaskStatus)
    (error_message : Option String) (result : Option String) (now : ℕ) : TaskRow :=
  if status = .running then
    { status := status, start_time := some now, end_time := none,
      result := result, error_message := error_message }
  else
    { status := status, start_time := task.start_time, end_time := some now,
      result := result, error_message := error_message }

/-- C6: entering Running sets `start_time` and clears `end_time`; entering
any terminal status (Completed, Failed, Timeout) sets `end_time` and leaves
`start_time` unchanged. -/
theorem update_task_status_timestamps :
    ∀ (task : TaskRow) (e r : Option String) (now : ℕ),
      ((update_task_status task .running e r now).start_time = some now
        ∧ (update_task_status task .running e r now).end_time = none)
      ∧ ∀ (st : TaskStatus), st.isTerminal = true →
          (update_task_status task st e r now).end_time = some now
          ∧ (update_task_status task st e r now).start_time = task.start_time := by
  intro task e r now
  refine ⟨⟨rfl, rfl⟩, ?_⟩
  intro st hst
  cases st <;> simp_all [update_task_status, TaskStatus.isTerminal]

/-- Witness for C6: a Completed transition on a concrete row. -/
theorem update_task_status_timestamps_witness :
    (update_task_status ⟨.running, some 3, none, none, none⟩ .completed none (some "out") 7).end_time
        = some 7
    ∧ (update_task_status ⟨.running, some 3, none, none, none⟩ .completed none (some "out") 7).start_time
        = some 3 :=
  (update_task_status_timestamps ⟨.running, some 3, none, none, none⟩ none (some "out") 7).2
    .completed (by decide)

/-- Program counter of one `process_task` coroutine, marking the atomic
blocks between suspension points (src/api/service.py):
`idle` = awaiting the semaphore; `acquired` = semaphore held and
`_running_tasks` incremented (lines 26-27); `active` = the RUNNING status
write happened (line 31); `finished` = a terminal status write happened
(lines 39-59); `cleaned` = semaphore released and `cleanup_task` ran
(lines 62-63, the `finally`). -/
inductive Pc where
  | idle
  | acquired
  | active
  | finished
  | cleaned
deriving DecidableEq, Repr

/-- One task as seen by the admission controller: its coroutine position,
its persisted status, and its persisted error message. -/
structure TaskCtrl where
  pc : Pc
  status : TaskStatus
  error_message : Option String
deriving DecidableEq, Repr

/-- Process-wide state of `TaskService`: free semaphore permits
(`asyncio.Semaphore(max_concurrent_tasks)`), the `_running_tasks` gauge
(an `int` in Python, hence `ℤ`), and the tasks. -/
structure EngineState where
  permits : ℕ
  running_gauge : ℤ
  tasks : List TaskCtrl
deriving Repr

/-- Small-step semantics of `TaskService.process_task` under the asyncio
cooperative scheduler: each constructor is one atomic block between
suspension points. `acquire` bundles the semaphore decrement with the
`_running_tasks += 1` on the next line (no await between them);
`cleanup` bundles the semaphore release with `cleanup_task` (the `finally`
runs synchronously after the `async with` exit, `cleanup_task` has no
yielding await). `set_running` clears `error_message` because
`update_task_status` passes `None` defaults. `submit` is the
`asyncio.create_task` call in the router. -/
inductive Step (N : ℕ) : EngineState → EngineState → Prop
  | submit (s : EngineState) :
      Step N s ⟨s.permits, s.running_gauge, s.tasks ++ [⟨.idle, .pending, none⟩]⟩
  | acquire (p : ℕ) (g : ℤ) (l₁ l₂ : List TaskCtrl) (t : TaskCtrl)
      (hpc : t.pc = .idle) :
      Step N ⟨p + 1, g, l₁ ++ t :: l₂⟩
        ⟨p, g + 1, l₁ ++ { t with pc := .acquired } :: l₂⟩
  | set_running (p : ℕ) (g : ℤ) (l₁ l₂ : List TaskCtrl) (t : TaskCtrl)
      (hpc : t.pc = .acquired) :
      Step N ⟨p, g, l₁ ++ t :: l₂⟩
        ⟨p, g, l₁ ++ (⟨.active, .running, none⟩ : TaskCtrl) :: l₂⟩
  | set_terminal (p : ℕ) (g : ℤ) (l₁ l₂ : List TaskCtrl) (t : TaskCtrl)
      (st : TaskStatus) (msg : Option String)
      (hpc : t.pc = .active) (hst : st.isTerminal = true) :
      Step N ⟨p, g, l₁ ++ t :: l₂⟩
        ⟨p, g, l₁ ++ (⟨.finished, st, msg⟩ : TaskCtrl) :: l₂⟩
  | cleanup (p : ℕ) (g : ℤ) (l₁ l₂ : List TaskCtrl) (t : TaskCtrl)
      (hpc : t.pc = .finished) :
      Step N ⟨p, g, l₁ ++ t :: l₂⟩
        ⟨p + 1, max 0 (g - 1), l₁ ++ { t with pc := .cleaned } :: l₂⟩

/-- Initial state: all `N` permits free, gauge 0, no tasks. -/
def init_state (N : ℕ) : EngineState := ⟨N, 0, []⟩

/-- States reachable by the admission controller from the initial state. -/
def Reachable (N : ℕ) (s : EngineState) : Prop :=
  Relation.ReflTransGen (Step N) (init_state N) s

/-- A task between its semaphore acquisition and its cleanup. -/
def in_flight (t : TaskCtrl) : Bool :=
  match t.pc with
  | .acquired => true
  | .active => true
  | .finished => true
  | _ => false

/-- Inductive invariant of the admission controller: the free permits and
the in-flight tasks partition the capacity, the gauge counts exactly the
in-flight tasks, and a task whose persisted status is RUNNING sits in the
`active` block of its coroutine. -/
def EngineInv (N : ℕ) (s : EngineState) : Prop :=
  s.permits + s.tasks.countP in_flight = N
  ∧ s.running_gauge = (s.tasks.countP in_flight : ℤ)
  ∧ ∀ t ∈ s.tasks, t.status = .running → t.pc = .active

lemma engine_inv_init (N : ℕ) : EngineInv N (init_state N) := by
  refine ⟨by simp [init_state], by simp [init_state], ?_⟩
  intro t ht
  exact absurd ht (by simp [init_state])

lemma engine_inv_step (N : ℕ) (s s' : EngineState) (hstep : Step N s s')
    (hinv : EngineInv N s) : EngineInv N s' := by
  obtain ⟨hperm, hgauge, hrun⟩ := hinv
  cases hstep with
  | submit s =>
    refine ⟨?_, ?_, ?_⟩
    · simpa [List.countP_append, in_flight] using hperm
    · simpa [List.countP_append, in_flight] using hgauge
    · intro t ht hst
      rcases List.mem_append.mp ht with h | h
      · exact hrun t h hst
      · simp only [List.mem_singleton] at h
        subst h
        exact absurd hst (by simp)
  | acquire p g l₁ l₂ t hpc =>
    have hto : in_flight t = false := by simp [in_flight, hpc]
    have htn : in_flight { t with pc := .acquired } = true := by simp [in_flight]
    refine ⟨?_, ?_, ?_⟩
    · simp only [List.countP_append, List.countP_cons, hto, htn] at hperm ⊢
      simp at hperm ⊢
      omega
    · simp only [List.countP_append, List.countP_cons, hto, htn] at hgauge ⊢
      simp at hgauge ⊢
      omega
    · intro u hu hst
      rcases List.mem_append.mp hu with h | h
      · exact hrun u (List.mem_append.mpr (Or.inl h)) hst
      · rcases List.mem_cons.mp h with rfl | h'
        · have : t.status = TaskStatus.running := hst
          exact absurd (hrun t (List.mem_append.mpr (Or.inr (List.mem_cons_self _ _))) this)
            (by rw [hpc]; simp)
        · exact hrun u (List.mem_append.mpr (Or.inr (List.mem_cons_of_mem _ h'))) hst
  | set_running p g l₁ l₂ t hpc =>
    have hto : in_flight t = true := by simp [in_flight, hpc]
    have htn : in_flight (⟨.active, .running, none⟩ : TaskCtrl) = true := by simp [in_flight]
    refine ⟨?_, ?_, ?_⟩
    · simp only [List.countP_append, List.countP_cons, hto, htn] at hperm ⊢
      simp at hperm ⊢
      omega
    · simp only [List.countP_append, List.countP_cons, hto, htn] at hgauge ⊢
      simp at hgauge ⊢
      omega
    · intro u hu hst
      rcases List.mem_append.mp hu with h | h
      · exact hrun u (List.mem_append.mpr (Or.inl h)) hst
      · rcases List.mem_cons.mp h with rfl | h'
        · rfl
        · exact hrun u (List.mem_append.mpr (Or.inr (List.mem_cons_of_mem _ h'))) hst
  | set_terminal p g l₁ l₂ t st msg hpc hst =>
    have hto : in_flight t = true := by simp [in_flight, hpc]
    have htn : in_flight (⟨.finished, st, msg⟩ : TaskCtrl) = true := by simp [in_flight]
    refine ⟨?_, ?_, ?_⟩
    · simp only [List.countP_append, List.countP_cons, hto, htn] at hperm ⊢
      simp at hperm ⊢
      omega
    · simp only [List.countP_append, List.countP_cons, hto, htn] at hgauge ⊢
      simp at hgauge ⊢
      omega
    · intro u hu hst'
      rcases List.mem_append.mp hu with h | h
      · exact hrun u (List.mem_append.mpr (Or.inl h)) hst'
      · rcases List.mem_cons.mp h with rfl | h'
        · exfalso
          have : st = TaskStatus.running := hst'
          subst this
          exact absurd hst (by simp [TaskStatus.isTerminal])
        · exact hrun u (List.mem_append.mpr (Or.inr (List.mem_cons_of_mem _ h'))) hst'
  | cleanup p g l₁ l₂ t hpc =>
    have hto : in_flight t = true := by simp [in_flight, hpc]
    have htn : in_flight { t with pc := .cleaned } = false := by simp [in_flight]
    refine ⟨?_, ?_, ?_⟩
    · simp only [List.countP_append, List.countP_cons, hto, htn] at hperm ⊢
      simp at hperm ⊢
      omega
    · simp only [List.countP_append, List.countP_cons, hto, htn] at hgauge ⊢
      simp at hgauge ⊢
      omega
    · intro u hu hst'
      rcases List.mem_append.mp hu with h | h
      · exact hrun u (List.mem_append.mpr (Or.inl h)) hst'
      · rcases List.mem_cons.mp h with rfl | h'
        · have : t.status = TaskStatus.running :=  hst'
          exact absurd (hrun t (List.mem_append.mpr (Or.inr (List.mem_cons_self _ _))) this)
            (by rw [hpc]; simp)
        · exact hrun u (List.mem_append.mpr (Or.inr (List.mem_cons_of_mem _ h'))) hst'

lemma engine_inv_reachable (N : ℕ) (s : EngineState) (h : Reachable N s) :
    EngineInv N s := by
  induction h with
  | refl => exact engine_inv_init N
  | tail hsteps hstep ih => exact engine_inv_step N _ _ hstep ih

/-- C4: bounded concurrency. In every state reachable by the task-processing
step relation with capacity `N` (`max_concurrent_tasks`), at most `N` tasks
have persisted status RUNNING, and the `_running_tasks` gauge is never
negative. -/
theorem running_tasks_bounded (N : ℕ) (s : EngineState) (h : Reachable N s) :
    s.tasks.countP (fun t => decide (t.status = TaskStatus.running)) ≤ N
    ∧ 0 ≤ s.running_gauge := by
  obtain ⟨hperm, hgauge, hrun⟩ := engine_inv_reachable N s h
  constructor
  · have hle : s.tasks.countP (fun t => decide (t.status = TaskStatus.running))
        ≤ s.tasks.countP in_flight := by
      apply List.countP_mono_left
      intro t ht hdec
      have hst : t.status = TaskStatus.running := of_decide_eq_true hdec
      have := hrun t ht hst
      simp [in_flight, this]
    omega
  · rw [hgauge]
    exact Int.natCast_nonneg _

/-- Witness for C4: a concrete reachable state with one running task under
capacity 2 (submit, acquire, set RUNNING). -/
theorem running_tasks_bounded_witness :
    (([⟨.active, .running, none⟩] : List TaskCtrl).countP
        (fun t => decide (t.status = TaskStatus.running)) ≤ 2)
    ∧ (0 : ℤ) ≤ 1 := by
  have h1 : Step 2 (init_state 2) ⟨2, 0, [⟨.idle, .pending, none⟩]⟩ := by
    have := @Step.submit 2 (init_state 2)
    simpa [init_state] using this
  have h2 : Step 2 ⟨2, 0, [⟨.idle, .pending, none⟩]⟩
      ⟨1, 1, [⟨.acquired, .pending, none⟩]⟩ := by
    have := @Step.acquire 2 1 0 [] [] ⟨.idle, .pending, none⟩ rfl
    simpa using this
  have h3 : Step 2 ⟨1, 1, [⟨.acquired, .pending, none⟩]⟩
      ⟨1, 1, [⟨.active, .running, none⟩]⟩ := by
    have := @Step.set_running 2 1 1 [] [] ⟨.acquired, .pending, none⟩ rfl
    simpa using this
  have hreach : Reachable 2 ⟨1, 1, [⟨.active, .running, none⟩]⟩ :=
    Relation.ReflTransGen.tail
      (Relation.ReflTransGen.tail (Relation.ReflTransGen.tail .refl h1) h2) h3
  exact running_tasks_bounded 2 ⟨1, 1, [⟨.active, .running, none⟩]⟩ hreach

/-- `pat` is a leading block of `cs` (character-level). -/
def starts_with_chars : List Char → List Char → Bool
  | [], _ => true
  | _ :: _, [] => false
  | a :: as, b :: bs => a == b && starts_with_chars as bs

/-- `pat` occurs as a contiguous block somewhere in `cs`. -/
def has_chars (pat : List Char) : List Char → Bool
  | [] => starts_with_chars pat []
  | b :: bs => starts_with_chars pat (b :: bs) || has_chars pat bs

/-- `pat` is a substring of `msg` (Python `pat in msg`). -/
def msg_contains (msg pat : String) : Bool := has_chars pat.data msg.data

/-- Failure modes of the cancel endpoint (src/api/router.py lines 68-72):
HTTP 404 when the task does not exist, HTTP 400 ("Only running tasks can be
cancelled") when it is not RUNNING. -/
inductive CancelErr where
  | not_found
  | not_running
deriving DecidableEq, Repr

/-- Embeds `cancel_task` (src/api/router.py lines 65-82) composed with what
the cancelled coroutine then does (src/api/service.py lines 41-48, 62-63):
when the target's persisted status is RUNNING, the endpoint cancels the
background task and awaits it; the `asyncio.CancelledError` handler writes
FAILED with message "Task was manually cancelled", and the `finally` block
releases the slot and decrements the gauge. On any error the state is
untouched. -/
def cancel_task (s : EngineState) (i : ℕ) : Except CancelErr Unit × EngineState :=
  match s.tasks[i]? with
  | none => (.error .not_found, s)
  | some t =>
    if t.status = .running then
      (.ok (), ⟨s.permits + 1, max 0 (s.running_gauge - 1),
        s.tasks.set i ⟨.cleaned, .failed, some "Task was manually cancelled"⟩⟩)
    else (.error .not_running, s)

/-- C5: cancelling a task that is not RUNNING fails with the NotRunning
error and leaves the state unchanged; cancelling a RUNNING task succeeds and
drives it to the terminal status Failed with an error message containing
"cancelled". -/
theorem cancel_task_semantics :
    ∀ (s : EngineState) (i : ℕ) (t : TaskCtrl), s.tasks[i]? = some t →
      (t.status ≠ TaskStatus.running → cancel_task s i = (.error .not_running, s))
      ∧ (t.status = TaskStatus.running →
          (cancel_task s i).1 = .ok ()
          ∧ ∃ t', (cancel_task s i).2.tasks[i]? = some t'
              ∧ t'.status = TaskStatus.failed
              ∧ TaskStatus.failed.isTerminal = true
              ∧ ∃ m, t'.error_message = some m ∧ msg_contains m "cancelled" = true) := by
  intro s i t h
  constructor
  · intro hne
    simp only [cancel_task, h]
    rw [if_neg hne]
  · intro heq
    have hlt : i < s.tasks.length := by
      obtain ⟨hl, -⟩ := List.getElem?_eq_some.mp h
      exact hl
    constructor
    · simp only [cancel_task, h, if_pos heq]
    · refine ⟨⟨.cleaned, .failed, some "Task was manually cancelled"⟩, ?_, rfl, rfl,
        "Task was manually cancelled", rfl, by decide⟩
      simp only [cancel_task, h, if_pos heq]
      exact List.getElem?_set_self hlt

/-- Witness for C5: cancelling the only (running) task of a one-task state. -/
theorem cancel_task_semantics_witness :
    (cancel_task ⟨0, 1, [⟨.active, .running, none⟩]⟩ 0).1 = .ok ()
    ∧ ∃ t', ((cancel_task ⟨0, 1, [⟨.active, .running, none⟩]⟩ 0).2).tasks[0]? = some t'
        ∧ t'.status = TaskStatus.failed
        ∧ TaskStatus.failed.isTerminal = true
        ∧ ∃ m, t'.error_message = some m ∧ msg_contains m "cancelled" = true :=
  (cancel_task_semantics ⟨0, 1, [⟨.active, .running, none⟩]⟩ 0 ⟨.active, .running, none⟩
    rfl).2 rfl

/-- `num_clips` for segment `idx` in the reels expansion
(src/services/video.py lines 262-265): `max(2, effect_plan[idx].get("num_clips", 2))`
when the effect plan is truthy and long enough, else 2. An effect-plan entry
is modelled by its optional `num_clips` value. -/
def num_clips_for (effect_plan : Option (List (Option ℤ))) (idx : ℕ) : ℤ :=
  match effect_plan with
  | some plan =>
    match plan[idx]? with
    | some item => max 2 (item.getD 2)
    | none => 2
  | none => 2

/-- `durations[idx] if idx < len(durations) else durations[-1]`
(video.py line 271); the Python `durations[-1]` on an empty list raises,
which is out of the modelled domain (theorems assume matching lengths). -/
def seg_duration (durations : List ℚ) (idx : ℕ) : ℚ :=
  match durations[idx]? with
  | some d => d
  | none => durations.getLastD 0

/-- Core of the reels expansion (video.py lines 261-277): segment `idx`
contributes `num_clips` copies of its terms and `num_clips` copies of
`duration / num_clips`. -/
def expand_core (effect_plan : Option (List (Option ℤ))) (durations : List ℚ) :
    ℕ → List (List String) → List (List String) × List ℚ
  | _, [] => ([], [])
  | idx, terms :: rest =>
    let n := (num_clips_for effect_plan idx).toNat
    let d := seg_duration durations idx
    let p := expand_core effect_plan durations (idx + 1) rest
    (List.replicate n terms ++ p.1, List.replicate n (d / (n : ℚ)) ++ p.2)

/-- `while len(search_terms) < 3: append last` (video.py lines 282-284). -/
def pad_to_min3 (ts : List (List String)) (ds : List ℚ) : List (List String) × List ℚ :=
  if ts.length < 3 then
    pad_to_min3 (ts ++ [ts.getLastD []]) (ds ++ [ds.getLastD 0])
  else (ts, ds)
termination_by 3 - ts.length
decreasing_by simp only [List.length_append, List.length_cons, List.length_nil]; omega

/-- Embeds the reels branch of `VideoGenerator._process_videos`
(video.py lines 256-286): expand every segment, then pad to the 3-clip
minimum when fewer than 3 clips came out of a non-empty segment list. -/
def expand_reels (effect_plan : Option (List (Option ℤ)))
    (search_terms : List (List String)) (durations : List ℚ) :
    List (List String) × List ℚ :=
  let p := expand_core effect_plan durations 0 search_terms
  if p.1.length < 3 ∧ 0 < p.1.length then pad_to_min3 p.1 p.2 else p

lemma num_clips_for_two_le (effect_plan : Option (List (Option ℤ))) (idx : ℕ) :
    2 ≤ (num_clips_for effect_plan idx).toNat := by
  have h2 : (2 : ℤ) ≤ num_clips_for effect_plan idx := by
    cases effect_plan with
    | none => simp [num_clips_for]
    | some plan =>
      cases h : plan[idx]? with
      | none => simp [num_clips_for, h]
      | some item =>
        simp only [num_clips_for, h]
        exact le_max_left _ _
  omega

lemma expand_core_sum (effect_plan : Option (List (Option ℤ))) (durations : List ℚ) :
    ∀ (terms : List (List String)) (idx : ℕ),
      idx + terms.length = durations.length →
      (expand_core effect_plan durations idx terms).2.sum = (durations.drop idx).sum := by
  intro terms
  induction terms with
  | nil =>
    intro idx hlen
    simp only [List.length_nil, Nat.add_zero] at hlen
    simp [expand_core, List.drop_of_length_le (le_of_eq hlen.symm)]
  | cons t rest ih =>
    intro idx hlen
    have hlt : idx < durations.length := by
      simp only [List.length_cons] at hlen
      omega
    have hseg : seg_duration durations idx = durations[idx] := by
      simp [seg_duration, List.getElem?_eq_getElem hlt]
    have hn : 2 ≤ (num_clips_for effect_plan idx).toNat := num_clips_for_two_le effect_plan idx
    have hnz : ((num_clips_for effect_plan idx).toNat : ℚ) ≠ 0 := by
      have : (0 : ℕ) < (num_clips_for effect_plan idx).toNat := by omega
      exact_mod_cast Nat.pos_iff_ne_zero.mp this
    have hrep : (List.replicate (num_clips_for effect_plan idx).toNat
        (seg_duration durations idx / ((num_clips_for effect_plan idx).toNat : ℚ))).sum
        = seg_duration durations idx := by
      rw [List.sum_replicate, nsmul_eq_mul, mul_div_cancel₀ _ hnz]
    have hrest : (expand_core effect_plan durations (idx + 1) rest).2.sum
        = (durations.drop (idx + 1)).sum := by
      apply ih
      simp only [List.length_cons] at hlen
      omega
    calc (expand_core effect_plan durations idx (t :: rest)).2.sum
        = (List.replicate (num_clips_for effect_plan idx).toNat
            (seg_duration durations idx / ((num_clips_for effect_plan idx).toNat : ℚ))).sum
          + (expand_core effect_plan durations (idx + 1) rest).2.sum := by
          simp [expand_core, List.sum_append]
      _ = durations[idx] + (durations.drop (idx + 1)).sum := by
          rw [hrep, hrest, hseg]
      _ = (durations.drop idx).sum := by
          rw [List.drop_eq_getElem_cons hlt, List.sum_cons]

/-- C7 counterexample: one segment of duration 4 with no effect plan
expands to 2 clips of 2 seconds each, and the 3-clip reels minimum then
appends a third 2-second entry: the expanded durations sum to 6, not to
the original total 4. -/
theorem expand_reels_total_duration_cex :
    (expand_reels none [["cat"]] [(4 : ℚ)]).2 = [2, 2, 2]
    ∧ List.sum (expand_reels none [["cat"]] [(4 : ℚ)]).2 = 6
    ∧ List.sum [(4 : ℚ)] = 4
    ∧ (6 : ℚ) ≠ 4 := by
  have hcore : expand_core none [(4 : ℚ)] 0 [["cat"]] = ([["cat"], ["cat"]], [2, 2]) := by
    norm_num [expand_core, num_clips_for, seg_duration, show Int.toNat 2 = 2 from rfl,
      List.replicate_succ, List.replicate_zero]
  have hpad : pad_to_min3 [["cat"], ["cat"]] [(2 : ℚ), 2]
      = ([["cat"], ["cat"], ["cat"]], [2, 2, 2]) := by
    rw [pad_to_min3, if_pos (by norm_num)]
    norm_num [List.getLastD]
    rw [pad_to_min3, if_neg (by norm_num)]
  have hexp : expand_reels none [["cat"]] [(4 : ℚ)]
      = ([["cat"], ["cat"], ["cat"]], [2, 2, 2]) := by
    rw [expand_reels]
    simp only [hcore]
    rw [if_pos (by norm_num)]
    exact hpad
  refine ⟨by rw [hexp], by rw [hexp]; norm_num, by norm_num, by norm_num⟩

/-- C7 (amended): each segment's expanded duration values sum to that
segment's duration, so the core expansion preserves the total; the padding
to the 3-clip reels minimum (video.py lines 280-284) duplicates the last
clip duration, so the total of `expand_reels` equals the original total
only when the core expansion already yields at least 3 clips (in
particular whenever there are at least two segments). -/
theorem expand_reels_duration_preserved :
    ∀ (effect_plan : Option (List (Option ℤ))) (search_terms : List (List String))
      (durations : List ℚ),
      search_terms.length = durations.length →
      (expand_core effect_plan durations 0 search_terms).2.sum = durations.sum
      ∧ (3 ≤ (expand_core effect_plan durations 0 search_terms).1.length →
          (expand_reels effect_plan search_terms durations).2.sum = durations.sum) := by
  intro effect_plan search_terms durations hlen
  have hcore : (expand_core effect_plan durations 0 search_terms).2.sum = durations.sum := by
    have := expand_core_sum effect_plan durations search_terms 0 (by omega)
    simpa using this
  refine ⟨hcore, ?_⟩
  intro h3
  rw [expand_reels]
  rw [if_neg (by omega)]
  exact hcore

/-- Witness for C7: two segments of durations 4 and 6 expand to four clips
summing to 10. -/
theorem expand_reels_duration_preserved_witness :
    (expand_core none [(4 : ℚ), 6] 0 [["a"], ["b"]]).2.sum = List.sum [(4 : ℚ), 6]
    ∧ (3 ≤ (expand_core none [(4 : ℚ), 6] 0 [["a"], ["b"]]).1.length →
        (expand_reels none [["a"], ["b"]] [(4 : ℚ), 6]).2.sum = List.sum [(4 : ℚ), 6]) :=
  expand_reels_duration_preserved none [["a"], ["b"]] [4, 6] (by decide)

/-- What probing a downloaded file can observe (base.py lines 95-112):
byte size, whether `VideoFileClip` can open it (`decodable`), and the
duration/fps it reports. -/
structure FileData where
  size : ℕ
  decodable : Bool
  duration : ℚ
  fps : ℚ
deriving DecidableEq, Repr

/-- Cache directory contents, path → file. -/
def fs_lookup (fs : List (String × FileData)) (path : String) : Option FileData :=
  match fs.find? (fun e => e.1 == path) with
  | some e => some e.2
  | none => none

/-- Writing `path` (overwrites any previous entry, shadowing cons). -/
def fs_insert (fs : List (String × FileData)) (path : String) (d : FileData) :
    List (String × FileData) :=
  (path, d) :: fs

/-- `os.remove(path)` (also drops shadowed entries). -/
def fs_erase (fs : List (String × FileData)) (path : String) : List (String × FileData) :=
  fs.filter (fun e => ¬ e.1 == path)

/-- `video_url.split("?")[0]` (base.py line 90): the prefix before the
first `?`. -/
def url_without_query (url : String) : String :=
  String.mk (url.data.takeWhile (fun c => c ≠ '?'))

/-- `f"{save_dir}/vid-{md5(url_without_query).hexdigest()}.mp4"`
(base.py lines 91-93); the md5 hex digest is an abstract function of the
query-stripped URL. -/
def video_cache_path (md5_hex : String → String) (save_dir : String) (video_url : String) :
    String :=
  save_dir ++ "/vid-" ++ md5_hex (url_without_query video_url) ++ ".mp4"

/-- `os.path.exists(video_path) and os.path.getsize(video_path) > 0`
(base.py line 95): the only test the reuse path performs. -/
def cached_nonempty (fs : List (String × FileData)) (path : String) : Bool :=
  match fs_lookup fs path with
  | some f => decide (0 < f.size)
  | none => false

/-- Embeds `MaterialHelper.save_video` (base.py lines 86-122) over an
explicit cache state. `fetch` is the HTTP GET: `none` models a raised
download exception (after which the partial file is removed), `some data`
the bytes written to the cache path. The Boolean in the result records
whether a download was attempted. Control flow of the source: a non-empty
cached file short-circuits everything; after a download, an empty file is
left in place and `""` returned; a non-empty file that `VideoFileClip`
cannot open is removed and `""` returned; one that opens but reports
non-positive duration or fps is left in place and `""` returned; otherwise
the path is returned. No branch downloads twice. -/
def save_video (md5_hex : String → String) (fetch : String → Option FileData)
    (fs : List (String × FileData)) (video_url : String) (save_dir : String) :
    String × List (String × FileData) × Bool :=
  let video_path := video_cache_path md5_hex save_dir video_url
  if cached_nonempty fs video_path then (video_path, fs, false)
  else
    match fetch video_url with
    | none => ("", fs_erase fs video_path, true)
    | some data =>
      let fs1 := fs_insert fs video_path data
      if 0 < data.size then
        if data.decodable then
          if 0 < data.duration ∧ 0 < data.fps then (video_path, fs1, true)
          else ("", fs1, true)
        else ("", fs_erase fs1 video_path, true)
      else ("", fs1, true)

/-- C8 counterexample: a cached file at the hash path that is non-empty
(5 bytes) but fails the playability check (`VideoFileClip` cannot decode
it) is returned as-is: it is not deleted, and no download happens (the
download flag is `false`) — the reuse path checks only existence and
non-zero size, never playability. -/
theorem save_video_unplayable_cache_cex :
    save_video (fun _ => "h") (fun _ => none)
        [("./cache_videos/vid-h.mp4", ⟨5, false, 0, 0⟩)]
        "http://a/b.mp4?tok=1" "./cache_videos"
      = ("./cache_videos/vid-h.mp4",
          [("./cache_videos/vid-h.mp4", ⟨5, false, 0, 0⟩)], false)
    ∧ (⟨5, false, 0, 0⟩ : FileData).decodable = false
    ∧ 0 < (⟨5, false, 0, 0⟩ : FileData).size := by
  refine ⟨rfl, rfl, by decide⟩

/-- C8 (amended): `save_video` caches content-addressed by the md5 hash of
the query-stripped URL, and any non-empty path it returns is that cache
path; an existing *non-empty* cached file is returned without downloading
regardless of playability; the playability check applies only to a freshly
downloaded file: a non-empty download that cannot be decoded is deleted and
the failure sentinel `""` is returned with no second fetch, while a download
that decodes but reports non-positive duration or fps is left in place and
`""` is likewise returned after the single fetch. -/
theorem save_video_cache_behaviour :
    ∀ (md5_hex : String → String) (fetch : String → Option FileData)
      (fs : List (String × FileData)) (video_url save_dir : String),
      ((save_video md5_hex fetch fs video_url save_dir).1 = ""
        ∨ (save_video md5_hex fetch fs video_url save_dir).1
            = video_cache_path md5_hex save_dir video_url)
      ∧ (∀ f, fs_lookup fs (video_cache_path md5_hex save_dir video_url) = some f →
          0 < f.size →
          save_video md5_hex fetch fs video_url save_dir
            = (video_cache_path md5_hex save_dir video_url, fs, false))
      ∧ (∀ data,
          cached_nonempty fs (video_cache_path md5_hex save_dir video_url) = false →
          fetch video_url = some data →
          0 < data.size →
          data.decodable = false →
          save_video md5_hex fetch fs video_url save_dir
            = ("", fs_erase
                (fs_insert fs (video_cache_path md5_hex save_dir video_url) data)
                (video_cache_path md5_hex save_dir video_url), true))
      ∧ (∀ data,
          cached_nonempty fs (video_cache_path md5_hex save_dir video_url) = false →
          fetch video_url = some data →
          0 < data.size →
          data.decodable = true →
          ¬ (0 < data.duration ∧ 0 < data.fps) →
          save_video md5_hex fetch fs video_url save_dir
            = ("", fs_insert fs (video_cache_path md5_hex save_dir video_url) data,
                true)) := by
  intro md5_hex fetch fs video_url save_dir
  refine ⟨?_, ?_, ?_, ?_⟩
  · by_cases hc : cached_nonempty fs (video_cache_path md5_hex save_dir video_url) = true
    · right
      simp [save_video, hc]
    · cases hf : fetch video_url with
      | none =>
        left
        simp [save_video, hc, hf]
      | some data =>
        by_cases hsz : 0 < data.size
        · by_cases hdec : data.decodable = true
          · by_cases hdf : 0 < data.duration ∧ 0 < data.fps
            · right
              simp [save_video, hc, hf, hsz, hdec, hdf]
            · left
              simp [save_video, hc, hf, hsz, hdec, hdf]
          · left
            simp [save_video, hc, hf, hsz, hdec]
        · left
          simp [save_video, hc, hf, hsz]
  · intro f hlook hsz
    have hc : cached_nonempty fs (video_cache_path md5_hex save_dir video_url) = true := by
      simp [cached_nonempty, hlook, hsz]
    simp [save_video, hc]
  · intro data hc hf hsz hdec
    simp [save_video, hc, hf, hsz, hdec]
  · intro data hc hf hsz hdec hdf
    simp [save_video, hc, hf, hsz, hdec, hdf]

/-- Witness for C8: a playable 3-byte cached file is reused as-is; an
undecodable fresh download over an empty cache is deleted and reported as
failure; a decodable fresh download with zero duration is left in the cache
and likewise reported as failure. -/
theorem save_video_cache_behaviour_witness :
    (save_video (fun _ => "h") (fun _ => some ⟨4, false, 0, 0⟩)
        [("d/vid-h.mp4", ⟨3, true, 5, 25⟩)] "u" "d"
      = ("d/vid-h.mp4", [("d/vid-h.mp4", ⟨3, true, 5, 25⟩)], false))
    ∧ (save_video (fun _ => "h") (fun _ => some ⟨4, false, 0, 0⟩) [] "u" "d"
      = ("", fs_erase (fs_insert [] "d/vid-h.mp4" ⟨4, false, 0, 0⟩) "d/vid-h.mp4", true))
    ∧ (save_video (fun _ => "h") (fun _ => some ⟨4, true, 0, 25⟩) [] "u" "d"
      = ("", fs_insert [] "d/vid-h.mp4" ⟨4, true, 0, 25⟩, true)) := by
  refine ⟨?_, ?_, ?_⟩
  · exact (save_video_cache_behaviour (fun _ => "h") (fun _ => some ⟨4, false, 0, 0⟩)
      [("d/vid-h.mp4", ⟨3, true, 5, 25⟩)] "u" "d").2.1 ⟨3, true, 5, 25⟩ rfl (by decide)
  · exact (save_video_cache_behaviour (fun _ => "h") (fun _ => some ⟨4, false, 0, 0⟩)
      [] "u" "d").2.2.1 ⟨4, false, 0, 0⟩ rfl rfl (by decide) rfl
  · exact (save_video_cache_behaviour (fun _ => "h") (fun _ => some ⟨4, true, 0, 25⟩)
      [] "u" "d").2.2.2 ⟨4, true, 0, 25⟩ rfl rfl (by decide) rfl (by norm_num)
